import Mathlib

/-!
Verification of the `ts.data.json` decoder-combinator engine.

The development shallowly embeds the runtime semantics of the TypeScript
sources (`src/result.ts`, `src/core.ts`, `src/schemas/*.ts`, and the
unnamed modules holding `allOf`/`deepMerge`, `record`, `templateLiteral`
and the `$JsonDecoderErrors` formatters).  Dynamic JavaScript values are
modelled by the inductive type `JS`; decoders are functions
`JS -> Result _` exactly as in the source, where the decoded value of a
decoder built from the library's combinators is itself a dynamic value.
-/

namespace TsJson

/-- Dynamic JavaScript values as they occur at `decode` time: strings,
numbers (integral numbers together with the distinguished `NaN` produced by
`parseInt`), booleans, `null`, `undefined`, arrays and plain objects.
Plain objects are association lists of own enumerable string keys in
insertion order.  String escape sequences and non-integral numbers play no
role in any claim and are elided. -/
inductive JS where
  | str (s : String)
  | num (n : Int)
  | nan
  | bool (b : Bool)
  | null
  | undefined
  | arr (xs : List JS)
  | obj (fields : List (String × JS))

/-- `typeof` on the modelled values. Note `typeof null === 'object'` and
`typeof NaN === 'number'` in JavaScript. -/
def typeOf : JS → String
  | .str _ => "string"
  | .num _ => "number"
  | .nan => "number"
  | .bool _ => "boolean"
  | .null => "object"
  | .undefined => "undefined"
  | .arr _ => "object"
  | .obj _ => "object"

/-- The guard `json !== null && typeof json === 'object'` used by the
`object` and `record` decoders: true exactly for arrays and plain objects. -/
def isObjectLike : JS → Bool
  | .arr _ => true
  | .obj _ => true
  | _ => false

/-- `isPlainObject` from the `allOf` module: an object whose prototype is
`Object.prototype`; in the model exactly the `obj` constructor. -/
def isPlainObject : JS → Bool
  | .obj _ => true
  | _ => false

/-- `Array.isArray`. -/
def isArray : JS → Bool
  | .arr _ => true
  | _ => false

/-- Own enumerable string-keyed entries, as enumerated by `for ... in` and
by object spread: an object's fields, an array's index/value pairs, a
string's index/character pairs, nothing for the remaining values. -/
def ownEntries : JS → List (String × JS)
  | .obj fields => fields
  | .arr xs => xs.enum.map (fun p => (toString p.1, p.2))
  | .str s => s.data.enum.map (fun p => (toString p.1, JS.str (String.mk [p.2])))
  | _ => []

/-- Lookup of a key among entries (first match, as in a JS object where
keys are unique). -/
def jsLookup (fields : List (String × JS)) (k : String) : Option JS :=
  (fields.find? (fun p => p.1 == k)).map (fun p => p.2)

/-- Property access `json[key]`: a missing property reads as `undefined`. -/
def jsGet : JS → String → JS
  | .obj fields, k => (jsLookup fields k).getD .undefined
  | .arr xs, k => (jsLookup (ownEntries (.arr xs)) k).getD .undefined
  | .str s, k => (jsLookup (ownEntries (.str s)) k).getD .undefined
  | _, _ => .undefined

/-- Property assignment `target[key] = v` on an entry list: updates the
first entry with that key in place, otherwise appends. -/
def setKey : List (String × JS) → String → JS → List (String × JS)
  | [], k, v => [(k, v)]
  | (k', v') :: rest, k, v =>
    if k' == k then (k', v) :: rest else (k', v') :: setKey rest k v

/-- `Result<T>` from `src/result.ts`: `Ok(value)` or `Err(error)`. -/
inductive Result (α : Type) where
  | ok (value : α)
  | err (error : String)

/-- `isOk` from `src/result.ts`. -/
def Result.isOk : Result α → Bool
  | .ok _ => true
  | .err _ => false

/-- `Result.map` from `src/result.ts`: transforms the success value and
passes a failure through unchanged. -/
def Result.map (fn : α → β) : Result α → Result β
  | .ok v => .ok (fn v)
  | .err e => .err e

/-- `getD r d`: the success value, or `d` when `r` is an error. Used only
to state theorems about results already known to be successes. -/
def Result.getD : Result α → α → α
  | .ok v, _ => v
  | .err _, d => d

/-- `Decoder<T>` from `src/core.ts`: a wrapper around a single function
`decodeFn : value -> Result T`. -/
structure Decoder (α : Type) where
  decodeFn : JS → Result α

/-- `decode` runs the wrapped function. -/
def Decoder.decode (d : Decoder α) (json : JS) : Result α :=
  d.decodeFn json

/-- `Decoder.map` from `src/core.ts`. -/
def Decoder.map (d : Decoder α) (fn : α → β) : Decoder β :=
  ⟨fun json =>
    match d.decodeFn json with
    | .ok v => .ok (fn v)
    | .err e => .err e⟩

/-- `Decoder.flatMap` from `src/core.ts` (lines 193-202): runs this
decoder; on success, runs `fn value` on the original `json`; on failure,
returns the failure. -/
def Decoder.flatMap (d : Decoder α) (fn : α → Decoder β) : Decoder β :=
  ⟨fun json =>
    match d.decodeFn json with
    | .ok v => (fn v).decode json
    | .err e => .err e⟩

/-- `chain`, the deprecated alias of `flatMap` (and the legacy
`Decoder.chain` in `core.ts` lines 670-679, whose body is identical). -/
def Decoder.chain (d : Decoder α) (fn : α → Decoder β) : Decoder β :=
  d.flatMap fn

/-- `Decoder.mapError` from `src/core.ts` (lines 389-398 and 642-651):
a success passes through, a failure becomes a success carrying `fn` of
the error message. -/
def Decoder.mapError (d : Decoder JS) (fn : String → JS) : Decoder JS :=
  ⟨fun json =>
    match d.decodeFn json with
    | .ok v => .ok v
    | .err e => .ok (fn e)⟩

mutual

/-- `JSON.stringify` on the modelled values, returning `none` where the
real function returns `undefined` (top-level `undefined`).  Inside arrays
such holes render as `null`; inside objects they are skipped.  String
escape sequences are elided. -/
def jsStringifyVal : JS → Option String
  | .str s => some ("\"" ++ s ++ "\"")
  | .num n => some (toString n)
  | .nan => some "null"
  | .bool b => some (cond b "true" "false")
  | .null => some "null"
  | .undefined => none
  | .arr xs => some ("[" ++ jsStringifyArr xs ++ "]")
  | .obj fs => some ("\x7b" ++ jsStringifyObj fs ++ "\x7d")

/-- Comma-joined stringification of array elements. -/
def jsStringifyArr : List JS → String
  | [] => ""
  | [x] => (jsStringifyVal x).getD "null"
  | x :: y :: rest =>
    (jsStringifyVal x).getD "null" ++ "," ++ jsStringifyArr (y :: rest)

/-- Comma-joined stringification of object fields, skipping fields whose
value stringifies to nothing. -/
def jsStringifyObj : List (String × JS) → String
  | [] => ""
  | (k, v) :: rest =>
    match jsStringifyVal v with
    | none => jsStringifyObj rest
    | some sv =>
      match jsStringifyObj rest with
      | "" => "\"" ++ k ++ "\":" ++ sv
      | tail => "\"" ++ k ++ "\":" ++ sv ++ "," ++ tail

end

/-- The string produced by interpolating `JSON.stringify(value)` into a
template: top-level `undefined` interpolates as `"undefined"`. -/
def jsStringify (v : JS) : String :=
  (jsStringifyVal v).getD "undefined"

/-- `primitiveError` from the error formatters. -/
def primitiveError (value : JS) (tag : String) : String :=
  jsStringify value ++ " is not a valid " ++ tag

/-- `exactlyError` from the error formatters. -/
def exactlyError (json : JS) (value : JS) : String :=
  jsStringify json ++ " is not exactly " ++ jsStringify value

/-- `objectError` from the error formatters. -/
def objectError (decoderName : String) (key : String) (error : String) : String :=
  "<" ++ decoderName ++ "> decoder failed at key \"" ++ key ++ "\" with error: " ++ error

/-- `recordError` from the error formatters. -/
def recordError (decoderName : String) (key : String) (error : String) : String :=
  "<" ++ decoderName ++ "> record decoder failed at key \"" ++ key ++ "\" with error: " ++ error

/-- `arrayError` from the error formatters. -/
def arrayError (decoderName : String) (index : Nat) (error : String) : String :=
  "<" ++ decoderName ++ "> decoder failed at index \"" ++ toString index ++ "\" with error: " ++ error

/-- `allOfError` from `errors/all-of-error.ts`. -/
def allOfError (decoderName : String) (index : Nat) (error : String) : String :=
  "<" ++ decoderName ++ "> allOf decoder failed at index #" ++ toString index ++ " with \"" ++ error ++ "\""

/-- `tupleLengthMismatchError` from `errors/tuple-length-mismatch-error.ts`:
the message mentions the input array's element count and the decoder count. -/
def tupleLengthMismatchError (decoderName : String) (jsonArray : List JS)
    (decoders : List (Decoder JS)) : String :=
  "<" ++ decoderName ++ "> tuple decoder failed because it received a tuple of length " ++
    toString jsonArray.length ++ ", but " ++ toString decoders.length ++ " decoders."

/-- `string()` from `schemas/string.ts`: succeeds on values of dynamic
type string, returning the input itself. -/
def string : Decoder JS :=
  ⟨fun json =>
    if typeOf json == "string" then .ok json else .err (primitiveError json "string")⟩

/-- `number()` from `schemas/number.ts`: succeeds on values of dynamic
type number, returning the input itself. -/
def number : Decoder JS :=
  ⟨fun json =>
    if typeOf json == "number" then .ok json else .err (primitiveError json "number")⟩

/-- `succeed` : always succeeds with the input. -/
def succeed : Decoder JS :=
  ⟨fun json => .ok json⟩

/-- `fail(error)` from `schemas/fail.ts`: always fails with the given
message, ignoring the input. -/
def fail (error : String) : Decoder JS :=
  ⟨fun _ => .err error⟩

/-- `optional` from `schemas/optional.ts` (lines 36-44): succeeds with
`undefined` when the input is `undefined`, otherwise delegates. -/
def optional (decoder : Decoder JS) : Decoder JS :=
  ⟨fun json =>
    match json with
    | .undefined => .ok .undefined
    | _ => decoder.decode json⟩

/-- `fallback(defaultValue, decoder)` from `schemas/fallback.ts`: returns
the decoder's success, and succeeds with the default on failure. -/
def fallback (defaultValue : JS) (decoder : Decoder JS) : Decoder JS :=
  ⟨fun json =>
    match decoder.decode json with
    | .ok v => .ok v
    | .err _ => .ok defaultValue⟩

namespace JsonDecoder

/-- The legacy `JsonDecoder.optional` from `core.ts` (lines 1077-1087):
succeeds with `undefined` when the input is `undefined`, also succeeds
with `undefined` when the input is `null`, otherwise delegates. -/
def optional (decoder : Decoder JS) : Decoder JS :=
  ⟨fun json =>
    match json with
    | .undefined => .ok .undefined
    | .null => .ok .undefined
    | _ => decoder.decode json⟩

end JsonDecoder

/-- A field descriptor of the `object` decoder (`schemas/object.ts`):
either a plain decoder reading from the field's own key, or a decoder
paired with a `fromKey` naming a different source key. -/
inductive FieldSpec where
  | plain (d : Decoder JS)
  | fromKey (key : String) (d : Decoder JS)

/-- Decoding one declared field of `object`: a plain descriptor reads
`json[key]`, a `fromKey` descriptor reads `json[fromKey]`. -/
def decodeField (json : JS) (key : String) : FieldSpec → Result JS
  | .plain d => d.decode (jsGet json key)
  | .fromKey k d => d.decode (jsGet json k)

/-- The field loop of `object` (`schemas/object.ts` lines 100-115):
walks the declared fields, assigning each success into the result record
and failing with `objectError` naming the declared key at the first
failure. -/
def objectLoop (decoderName : String) (json : JS) :
    List (String × FieldSpec) → List (String × JS) → Result JS
  | [], result => .ok (.obj result)
  | (key, spec) :: rest, result =>
    match decodeField json key spec with
    | .ok v => objectLoop decoderName json rest (setKey result key v)
    | .err e => .err (objectError decoderName key e)

/-- `object(decoders, decoderName)` from `schemas/object.ts` (lines
93-121): requires a non-null value of object type, then decodes the
declared fields. -/
def object (decoders : List (String × FieldSpec)) (decoderName : String) : Decoder JS :=
  ⟨fun json =>
    if isObjectLike json then objectLoop decoderName json decoders []
    else .err (primitiveError json decoderName)⟩

/-- The key loop of `record` (the unnamed `record` module, lines 35-46):
walks the input's own enumerable entries, decoding every value under its
key. -/
def recordLoop (decoderName : String) (decoder : Decoder JS) :
    List (String × JS) → List (String × JS) → Result JS
  | [], result => .ok (.obj result)
  | (key, v) :: rest, result =>
    match decoder.decode v with
    | .ok w => recordLoop decoderName decoder rest (setKey result key w)
    | .err e => .err (recordError decoderName key e)

/-- `record(decoder, decoderName)` from the unnamed `record` module
(lines 28-52): requires a non-null value of object type, then decodes
every own enumerable property value. -/
def record (decoder : Decoder JS) (decoderName : String) : Decoder JS :=
  ⟨fun json =>
    if isObjectLike json then recordLoop decoderName decoder (ownEntries json) []
    else .err (primitiveError json decoderName)⟩

/-- The element loop of `tuple` (`schemas/tuple.ts` lines 50-59): decoders
and elements are consumed positionwise (the source indexes both arrays by
the same `i`; once the lengths are known equal this is their zip), failing
with `arrayError` at the first elementwise failure. -/
def tupleLoop (decoderName : String) :
    List (Decoder JS × JS) → Nat → List JS → Result JS
  | [], _, arr => .ok (.arr arr)
  | (d, x) :: rest, i, arr =>
    match d.decode x with
    | .ok v => tupleLoop decoderName rest (i + 1) (arr ++ [v])
    | .err e => .err (arrayError decoderName i e)

/-- `tuple(decoders, decoderName)` from `schemas/tuple.ts` (lines 34-68):
a non-array fails with the array primitive error; an array whose length
differs from the decoder count fails with `tupleLengthMismatchError`
before any element decoder runs; otherwise elements are decoded
positionwise. -/
def tuple (decoders : List (Decoder JS)) (decoderName : String) : Decoder JS :=
  ⟨fun json =>
    match json with
    | .arr xs =>
      if xs.length ≠ decoders.length then
        .err (tupleLengthMismatchError decoderName xs decoders)
      else
        tupleLoop decoderName (decoders.zip xs) 0 []
    | _ => .err (primitiveError json "array")⟩

mutual

/-- The per-key value selection of `deepMerge` (unnamed `allOf` module,
lines 105-115): when the target's value under the key and the source's
value are both plain objects they are merged recursively, otherwise the
source value replaces (in particular arrays are replaced, not merged). -/
def deepMergeVal : Option JS → JS → JS
  | some (.obj tf), .obj sf => .obj (mergeSourceList tf tf sf)
  | _, sv => sv

/-- The key loop of `deepMerge`: starting from a spread copy of the
target, assign for every source entry the merged value under its key. -/
def mergeSourceList (target : List (String × JS)) :
    List (String × JS) → List (String × JS) → List (String × JS)
  | result, [] => result
  | result, (k, sv) :: rest =>
    mergeSourceList target (setKey result k (deepMergeVal (jsLookup target k) sv)) rest

end

/-- `deepMerge({target, source})` from the unnamed `allOf` module (lines
99-119): folds the source's own enumerable entries over a spread copy of
the target. -/
def deepMerge (target source : JS) : JS :=
  .obj (mergeSourceList (ownEntries target) (ownEntries target) (ownEntries source))

/-- The decoder loop of the merging `allOf` (unnamed `allOf` module,
lines 63-78): `isObj`/`isArr` are computed once from the original input;
after each success the running value is deep-merged with the success
value when the input was a plain object, kept unchanged when the input
was an array, and replaced by the success value otherwise. -/
def allOfLoop (decoderName : String) (isObj isArr : Bool) :
    Nat → JS → List (Decoder JS) → Result JS
  | _, lastJson, [] => .ok lastJson
  | i, lastJson, d :: ds =>
    match d.decode lastJson with
    | .ok v =>
      allOfLoop decoderName isObj isArr (i + 1)
        (if isObj then deepMerge lastJson v else if isArr then lastJson else v) ds
    | .err e => .err (allOfError decoderName i e)

/-- `allOf(decoders, decoderName)` from the unnamed `allOf` module
(lines 59-80): the deep-merging variant. -/
def allOf (decoders : List (Decoder JS)) (decoderName : String) : Decoder JS :=
  ⟨fun json =>
    allOfLoop decoderName (isPlainObject json) (isArray json) 0 json decoders⟩

namespace Schemas

/-- The decoder loop of the non-merging `allOf` of `schemas/all-of.ts`:
every decoder is applied to the same original input. -/
def allOfLoop (decoderName : String) (json : JS) :
    Nat → List (Decoder JS) → Result JS
  | _, [] => .ok json
  | i, d :: ds =>
    match d.decode json with
    | .ok _ => allOfLoop decoderName json (i + 1) ds
    | .err e => .err (allOfError decoderName i e)

/-- `allOf(decoders, decoderName)` from `schemas/all-of.ts` (lines
45-58): every decoder is applied to the original input, and on success
the original input itself is returned — no merging of any kind. -/
def allOf (decoders : List (Decoder JS)) (decoderName : String) : Decoder JS :=
  ⟨fun json => allOfLoop decoderName json 0 decoders⟩

end Schemas

/-- A segment of a template-literal pattern: a string literal, a number
literal, or a sub-decoder (`string | number | Decoder<any>` in the
source). -/
inductive TPart where
  | lit (s : String)
  | numLit (n : Int)
  | dec (d : Decoder JS)

/-- One segment of the rendered pattern shown in template-mismatch
errors: `?` for a sub-decoder, the fragment itself otherwise. -/
def renderPart : TPart → String
  | .lit s => s
  | .numLit n => toString n
  | .dec _ => "?"

/-- The rendered pattern `parts.map(p => p instanceof Decoder ? '?' : p).join('')`. -/
def renderTemplate (parts : List TPart) : String :=
  String.join (parts.map renderPart)

/-- The boundary search of the source (`part_009` lines 43-45): the first
part after the current one with `typeof p === 'string'` — number literal
parts are NOT candidates. -/
def firstStringLit : List TPart → Option String
  | [] => none
  | .lit s :: _ => some s
  | _ :: rest => firstStringLit rest

/-- The boundary search as described by the claim: the first subsequent
literal segment, where literal segments are string or number fragments
rendered to string. -/
def firstLiteralRendered : List TPart → Option String
  | [] => none
  | .lit s :: _ => some s
  | .numLit n :: _ => some (toString n)
  | .dec _ :: rest => firstLiteralRendered rest

/-- `String.prototype.indexOf(sub, start)` on character lists: the least
position at or after `start` (clamped to the length) where `sub` occurs,
or `none`. -/
def jsIndexOfFrom (s sub : List Char) (start : Nat) : Option Nat :=
  (List.range (s.length + 1)).find?
    (fun i => decide (min start s.length ≤ i) && sub.isPrefixOf (s.drop i))

/-- The least position in `cs` at which `sub` occurs. -/
def firstOccurIdx (cs sub : List Char) : Option Nat :=
  (List.range (cs.length + 1)).find? (fun k => sub.isPrefixOf (cs.drop k))

/-- The value of the leading decimal digits of a character list. -/
def digitsToNat (ds : List Char) : Nat :=
  ds.foldl (fun a c => a * 10 + (c.toNat - 48)) 0

/-- `parseInt(value)`: strip leading whitespace, read an optional sign
and then leading decimal digits; `NaN` when no digit is read.  (`NaN` has
`typeof 'number'`, so a number decoder accepts it.) -/
def jsParseInt (s : String) : JS :=
  let cs := s.data.dropWhile Char.isWhitespace
  match cs with
  | '-' :: rest =>
    let ds := rest.takeWhile Char.isDigit
    if ds.isEmpty then .nan else .num (-(digitsToNat ds : Int))
  | '+' :: rest =>
    let ds := rest.takeWhile Char.isDigit
    if ds.isEmpty then .nan else .num (digitsToNat ds : Int)
  | _ =>
    let ds := cs.takeWhile Char.isDigit
    if ds.isEmpty then .nan else .num (digitsToNat ds : Int)

/-- The segment walk of `templateLiteral` (`part_009` lines 37-87),
tracking the cursor `jsonIndex` into the input string.  For a sub-decoder
segment the captured substring ends at the first occurrence, at or after
the cursor, of the next subsequent STRING literal part (number parts are
not boundary candidates), or at the end of the input when there is none;
the capture is decoded as-is and, on failure, retried on its `parseInt`;
a literal segment must occur literally at the cursor.  After the last
segment the cursor must equal the input length. -/
def tlLoop (parts : List TPart) (s : String) : Nat → List TPart → Result JS
  | jsonIndex, [] =>
    if jsonIndex ≠ s.data.length then
      .err (exactlyError (.str s) (.str (renderTemplate parts)))
    else .ok (.str s)
  | jsonIndex, .dec d :: rest =>
    let endIndex? :=
      match firstStringLit rest with
      | none => some s.data.length
      | some lit => jsIndexOfFrom s.data lit.data jsonIndex
    match endIndex? with
    | none => .err (exactlyError (.str s) (.str (renderTemplate parts)))
    | some endIndex =>
      let value := String.mk ((s.data.take endIndex).drop jsonIndex)
      let r := d.decode (.str value)
      let r2 := if r.isOk then r else d.decode (jsParseInt value)
      match r2 with
      | .err e => .err e
      | .ok _ => tlLoop parts s endIndex rest
  | jsonIndex, .lit l :: rest =>
    if l.data.isPrefixOf (s.data.drop jsonIndex) then
      tlLoop parts s (jsonIndex + l.data.length) rest
    else .err (exactlyError (.str s) (.str (renderTemplate parts)))
  | jsonIndex, .numLit n :: rest =>
    if (toString n).data.isPrefixOf (s.data.drop jsonIndex) then
      tlLoop parts s (jsonIndex + (toString n).data.length) rest
    else .err (exactlyError (.str s) (.str (renderTemplate parts)))

/-- `templateLiteral(parts)` from `part_009` (lines 26-91): a non-string
input fails with the template-mismatch error; a string input is walked by
`tlLoop`. -/
def templateLiteral (parts : List TPart) : Decoder JS :=
  ⟨fun json =>
    match json with
    | .str s => tlLoop parts s 0 parts
    | _ => .err (exactlyError json (.str (renderTemplate parts)))⟩

/-- The walk exactly as the claim words it: identical to `tlLoop` except
that the captured substring of a sub-decoder segment ends at the first
occurrence of the next subsequent literal segment where number literal
segments, rendered to string, are boundary candidates too. -/
def tlClaimLoop (parts : List TPart) (s : String) : Nat → List TPart → Result JS
  | jsonIndex, [] =>
    if jsonIndex ≠ s.data.length then
      .err (exactlyError (.str s) (.str (renderTemplate parts)))
    else .ok (.str s)
  | jsonIndex, .dec d :: rest =>
    let endIndex? :=
      match firstLiteralRendered rest with
      | none => some s.data.length
      | some lit => jsIndexOfFrom s.data lit.data jsonIndex
    match endIndex? with
    | none => .err (exactlyError (.str s) (.str (renderTemplate parts)))
    | some endIndex =>
      let value := String.mk ((s.data.take endIndex).drop jsonIndex)
      let r := d.decode (.str value)
      let r2 := if r.isOk then r else d.decode (jsParseInt value)
      match r2 with
      | .err e => .err e
      | .ok _ => tlClaimLoop parts s endIndex rest
  | jsonIndex, .lit l :: rest =>
    if l.data.isPrefixOf (s.data.drop jsonIndex) then
      tlClaimLoop parts s (jsonIndex + l.data.length) rest
    else .err (exactlyError (.str s) (.str (renderTemplate parts)))
  | jsonIndex, .numLit n :: rest =>
    if (toString n).data.isPrefixOf (s.data.drop jsonIndex) then
      tlClaimLoop parts s (jsonIndex + (toString n).data.length) rest
    else .err (exactlyError (.str s) (.str (renderTemplate parts)))

/-- The template-literal decoder exactly as claim C7 describes it
(string AND number literal segments are capture boundaries). -/
def templateLiteralClaimSpec (parts : List TPart) : Decoder JS :=
  ⟨fun json =>
    match json with
    | .str s => tlClaimLoop parts s 0 parts
    | _ => .err (exactlyError json (.str (renderTemplate parts)))⟩

/-- The amended specification of the walk, phrased on the remaining
suffix of the input instead of a cursor: a sub-decoder segment captures
up to the first occurrence in the remaining input of the next subsequent
STRING literal segment (to the end of the remaining input when none
exists); a literal segment must be a prefix of the remaining input; after
all segments the remaining input must be empty. -/
def tlaLoop (parts : List TPart) (orig : String) : List Char → List TPart → Result JS
  | rem, [] =>
    if rem.isEmpty then .ok (.str orig)
    else .err (exactlyError (.str orig) (.str (renderTemplate parts)))
  | rem, .dec d :: rest =>
    let captured? : Option (List Char × List Char) :=
      match firstStringLit rest with
      | none => some (rem, [])
      | some lit =>
        match firstOccurIdx rem lit.data with
        | none => none
        | some k => some (rem.take k, rem.drop k)
    match captured? with
    | none => .err (exactlyError (.str orig) (.str (renderTemplate parts)))
    | some (captured, rem2) =>
      let value := String.mk captured
      let r := d.decode (.str value)
      let r2 := if r.isOk then r else d.decode (jsParseInt value)
      match r2 with
      | .err e => .err e
      | .ok _ => tlaLoop parts orig rem2 rest
  | rem, .lit l :: rest =>
    if l.data.isPrefixOf rem then tlaLoop parts orig (rem.drop l.data.length) rest
    else .err (exactlyError (.str orig) (.str (renderTemplate parts)))
  | rem, .numLit n :: rest =>
    if (toString n).data.isPrefixOf rem then
      tlaLoop parts orig (rem.drop (toString n).data.length) rest
    else .err (exactlyError (.str orig) (.str (renderTemplate parts)))

/-- The amended specification decoder (string literals only as capture
boundaries, phrased on input suffixes). -/
def templateLiteralAmendedSpec (parts : List TPart) : Decoder JS :=
  ⟨fun json =>
    match json with
    | .str s => tlaLoop parts s s.data parts
    | _ => .err (exactlyError json (.str (renderTemplate parts)))⟩

/-- The tail of `tlLoop`'s sub-decoder branch once the capture end is
known: decode the captured substring, retry on its `parseInt`, then
continue at the boundary. -/
def tlDecFinish (parts : List TPart) (s : String) (d : Decoder JS)
    (rest : List TPart) (jsonIndex endIndex : Nat) : Result JS :=
  let value := String.mk ((s.data.take endIndex).drop jsonIndex)
  let r := d.decode (.str value)
  let r2 := if r.isOk then r else d.decode (jsParseInt value)
  match r2 with
  | .err e => .err e
  | .ok _ => tlLoop parts s endIndex rest

/-- The tail of `tlaLoop`'s sub-decoder branch once the capture is known. -/
def tlaDecFinish (parts : List TPart) (orig : String) (d : Decoder JS)
    (rest : List TPart) (captured rem2 : List Char) : Result JS :=
  let value := String.mk captured
  let r := d.decode (.str value)
  let r2 := if r.isOk then r else d.decode (jsParseInt value)
  match r2 with
  | .err e => .err e
  | .ok _ => tlaLoop parts orig rem2 rest

theorem tlLoop_dec_no_lit (parts : List TPart) (s : String) (i : Nat)
    (d : Decoder JS) (rest : List TPart) (h : firstStringLit rest = none) :
    tlLoop parts s i (.dec d :: rest) = tlDecFinish parts s d rest i s.data.length := by
  have hstep : tlLoop parts s i (.dec d :: rest) =
      match (match firstStringLit rest with
             | none => some s.data.length
             | some lit => jsIndexOfFrom s.data lit.data i) with
      | none => Result.err (exactlyError (.str s) (.str (renderTemplate parts)))
      | some endIndex => tlDecFinish parts s d rest i endIndex := rfl
  rw [hstep, h]

theorem tlLoop_dec_lit (parts : List TPart) (s : String) (i : Nat)
    (d : Decoder JS) (rest : List TPart) (lit : String)
    (h : firstStringLit rest = some lit) :
    tlLoop parts s i (.dec d :: rest) =
      match jsIndexOfFrom s.data lit.data i with
      | none => Result.err (exactlyError (.str s) (.str (renderTemplate parts)))
      | some endIndex => tlDecFinish parts s d rest i endIndex := by
  have hstep : tlLoop parts s i (.dec d :: rest) =
      match (match firstStringLit rest with
             | none => some s.data.length
             | some lit => jsIndexOfFrom s.data lit.data i) with
      | none => Result.err (exactlyError (.str s) (.str (renderTemplate parts)))
      | some endIndex => tlDecFinish parts s d rest i endIndex := rfl
  rw [hstep, h]

theorem tlaLoop_dec_no_lit (parts : List TPart) (orig : String) (rem : List Char)
    (d : Decoder JS) (rest : List TPart) (h : firstStringLit rest = none) :
    tlaLoop parts orig rem (.dec d :: rest) = tlaDecFinish parts orig d rest rem [] := by
  have hstep : tlaLoop parts orig rem (.dec d :: rest) =
      match (match firstStringLit rest with
             | none => some (rem, ([] : List Char))
             | some lit =>
               match firstOccurIdx rem lit.data with
               | none => none
               | some k => some (rem.take k, rem.drop k)) with
      | none => Result.err (exactlyError (.str orig) (.str (renderTemplate parts)))
      | some (captured, rem2) => tlaDecFinish parts orig d rest captured rem2 := rfl
  rw [hstep, h]

theorem tlaLoop_dec_lit (parts : List TPart) (orig : String) (rem : List Char)
    (d : Decoder JS) (rest : List TPart) (lit : String)
    (h : firstStringLit rest = some lit) :
    tlaLoop parts orig rem (.dec d :: rest) =
      match firstOccurIdx rem lit.data with
      | none => Result.err (exactlyError (.str orig) (.str (renderTemplate parts)))
      | some k => tlaDecFinish parts orig d rest (rem.take k) (rem.drop k) := by
  have hstep : tlaLoop parts orig rem (.dec d :: rest) =
      match (match firstStringLit rest with
             | none => some (rem, ([] : List Char))
             | some lit =>
               match firstOccurIdx rem lit.data with
               | none => none
               | some k => some (rem.take k, rem.drop k)) with
      | none => Result.err (exactlyError (.str orig) (.str (renderTemplate parts)))
      | some (captured, rem2) => tlaDecFinish parts orig d rest captured rem2 := rfl
  rw [hstep, h]
  show (match (match firstOccurIdx rem lit.data with
               | none => (none : Option (List Char × List Char))
               | some k => some (rem.take k, rem.drop k)) with
        | none => Result.err (exactlyError (.str orig) (.str (renderTemplate parts)))
        | some (captured, rem2) => tlaDecFinish parts orig d rest captured rem2) = _
  cases firstOccurIdx rem lit.data <;> rfl

theorem tlFinish_eq (parts : List TPart) (s : String) (d : Decoder JS)
    (rest : List TPart) (i endIndex : Nat) (captured rem2 : List Char)
    (hval : (s.data.take endIndex).drop i = captured)
    (hrec : tlLoop parts s endIndex rest = tlaLoop parts s rem2 rest) :
    tlDecFinish parts s d rest i endIndex = tlaDecFinish parts s d rest captured rem2 := by
  simp only [tlDecFinish, tlaDecFinish, hval, hrec]

/-- Claim C1: `d.flatMap(fn)` first runs `d` on the input; a failure of
`d` is passed through unchanged; on success with value `v` the decoder
`fn v` is run on the original input `j` (not on `v`), and `chain` is the
same decoder as `flatMap`. -/
theorem claim1_flatMap_runs_fn_on_original_input
    {α β : Type} (d : Decoder α) (fn : α → Decoder β) (j : JS) :
    (∀ e, d.decode j = .err e → (d.flatMap fn).decode j = .err e)
    ∧ (∀ v, d.decode j = .ok v → (d.flatMap fn).decode j = (fn v).decode j)
    ∧ (d.chain fn).decode j = (d.flatMap fn).decode j := by
  refine ⟨?_, ?_, rfl⟩ <;> intro x h <;>
    simp only [Decoder.decode, Decoder.flatMap] at h ⊢ <;> rw [h]

/-- Witness for C1 at concrete inputs: a success feeds the original
input to the produced decoder, a failure is passed through. -/
theorem claim1_witness :
    ((string.flatMap (fun _ => succeed)).decode (.str "a") = succeed.decode (.str "a"))
    ∧ ((string.flatMap (fun _ => succeed)).decode (.num 3) =
        .err (primitiveError (.num 3) "string")) :=
  ⟨(claim1_flatMap_runs_fn_on_original_input string (fun _ => succeed) (.str "a")).2.1
      (.str "a") rfl,
   (claim1_flatMap_runs_fn_on_original_input string (fun _ => succeed) (.num 3)).1
      (primitiveError (.num 3) "string") rfl⟩

/-- Counterexample to claim C3: the legacy `JsonDecoder.optional` cited
by the claim does NOT return `d.decode(null)` on the input `null` — it
succeeds with `undefined` even when the wrapped decoder fails on `null`. -/
theorem claim3_counterexample :
    (JsonDecoder.optional (fail "boom")).decode .null = .ok .undefined
    ∧ (fail "boom").decode .null = .err "boom"
    ∧ (JsonDecoder.optional (fail "boom")).decode .null ≠ (fail "boom").decode .null :=
  ⟨rfl, rfl, fun h => Result.noConfusion h⟩

/-- Claim C3 as amended: `optional` (schemas/optional.ts) succeeds with
`undefined` exactly on `undefined` and delegates on every other input,
including `null`; the legacy `JsonDecoder.optional` (core.ts) also maps
`null` to a success with `undefined`, and delegates only on inputs that
are neither `undefined` nor `null`. -/
theorem claim3_amended (d : Decoder JS) (j : JS) :
    ((optional d).decode .undefined = .ok .undefined)
    ∧ (j ≠ .undefined → (optional d).decode j = d.decode j)
    ∧ ((JsonDecoder.optional d).decode .undefined = .ok .undefined)
    ∧ ((JsonDecoder.optional d).decode .null = .ok .undefined)
    ∧ (j ≠ .undefined → j ≠ .null → (JsonDecoder.optional d).decode j = d.decode j) := by
  refine ⟨rfl, ?_, rfl, rfl, ?_⟩
  · intro h
    cases j <;> first | rfl | exact absurd rfl h
  · intro h h'
    cases j <;> first | rfl | exact absurd rfl h | exact absurd rfl h'

/-- Witness for the amended C3: both `optional`s delegate on a number
input on which the wrapped decoder fails. -/
theorem claim3_witness :
    ((optional (fail "x")).decode (.num 0) = (fail "x").decode (.num 0))
    ∧ ((JsonDecoder.optional (fail "x")).decode (.num 0) = (fail "x").decode (.num 0)) :=
  ⟨(claim3_amended (fail "x") (.num 0)).2.1 (fun h => JS.noConfusion h),
   (claim3_amended (fail "x") (.num 0)).2.2.2.2
      (fun h => JS.noConfusion h) (fun h => JS.noConfusion h)⟩

/-- Claim C6: `fallback(v, d)` returns `d`'s success unchanged and
succeeds with exactly `v` where `d` fails; the result never depends on
the failing decoder's error (two decoders failing on the same input give
the same fallback result). -/
theorem claim6_fallback_swallows_errors (v : JS) (d : Decoder JS) (j : JS) :
    ((fallback v d).decode j = match d.decode j with
      | .ok x => .ok x
      | .err _ => .ok v)
    ∧ (∀ d' : Decoder JS, (d.decode j).isOk = false → (d'.decode j).isOk = false →
        (fallback v d).decode j = (fallback v d').decode j) := by
  constructor
  · rfl
  · intro d' h h'
    simp only [Decoder.decode, fallback]
    cases hd : d.decodeFn j <;> cases hd' : d'.decodeFn j <;>
      simp_all [Decoder.decode, Result.isOk]

/-- Witness for C6: `fallback(0, number).decode("nope")` equals the
fallback of any other failing decoder — the wrapped error is swallowed —
and by the first conjunct it succeeds with `0`. -/
theorem claim6_witness :
    ((fallback (.num 0) number).decode (.str "nope") =
      (fallback (.num 0) (fail "other error")).decode (.str "nope"))
    ∧ ((fallback (.num 0) number).decode (.str "nope") = .ok (.num 0)) :=
  ⟨(claim6_fallback_swallows_errors (.num 0) number (.str "nope")).2
      (fail "other error") rfl rfl,
   (claim6_fallback_swallows_errors (.num 0) number (.str "nope")).1⟩

/-- Counterexample to claim C8: the publicly constructible decoder
`fail('')` produces a `Failure` whose message is the empty string. -/
theorem claim8_counterexample :
    (fail "").decode .null = .err "" ∧ ("" : String).length = 0 :=
  ⟨rfl, rfl⟩

/-- Claim C8 as amended: every `Result` is exactly one of the two
variants (and the variants are disjoint), and `fail(msg)` produces a
`Failure` carrying exactly the caller-supplied message — which may
therefore be empty. -/
theorem claim8_amended :
    (∀ r : Result JS, (∃ v, r = .ok v ∧ r.isOk = true) ∨ (∃ e, r = .err e ∧ r.isOk = false))
    ∧ (∀ (msg : String) (j : JS), (fail msg).decode j = .err msg)
    ∧ (∀ (v : JS) (e : String), (Result.ok v : Result JS) ≠ .err e) := by
  refine ⟨?_, fun _ _ => rfl, fun v e h => Result.noConfusion h⟩
  intro r
  cases r with
  | ok v => exact Or.inl ⟨v, rfl, rfl⟩
  | err e => exact Or.inr ⟨e, rfl, rfl⟩

/-- Claim C10: `d.mapError(fn)` never fails — it succeeds with `d`'s
value when `d` succeeds and with `fn` of `d`'s error message when `d`
fails. -/
theorem claim10_mapError_never_fails (d : Decoder JS) (fn : String → JS) (j : JS) :
    (((d.mapError fn).decode j).isOk = true)
    ∧ (∀ v, d.decode j = .ok v → (d.mapError fn).decode j = .ok v)
    ∧ (∀ e, d.decode j = .err e → (d.mapError fn).decode j = .ok (fn e)) := by
  simp only [Decoder.decode, Decoder.mapError]
  cases h : d.decodeFn j <;> simp [Result.isOk]

/-- Witness for C10: `mapError` turns a number-decoder failure on a
string input into a success carrying the transformed message, and a
success stays a success. -/
theorem claim10_witness :
    ((number.mapError (fun e => .str e)).decode (.str "x") =
      .ok (.str (primitiveError (.str "x") "number")))
    ∧ ((number.mapError (fun e => .str e)).decode (.num 4) = .ok (.num 4)) :=
  ⟨(claim10_mapError_never_fails number (fun e => .str e) (.str "x")).2.2
      (primitiveError (.str "x") "number") rfl,
   (claim10_mapError_never_fails number (fun e => .str e) (.num 4)).2.1 (.num 4) rfl⟩

theorem setKey_of_not_mem (acc : List (String × JS)) (k : String) (v : JS)
    (h : k ∉ acc.map Prod.fst) : setKey acc k v = acc ++ [(k, v)] := by
  induction acc with
  | nil => rfl
  | cons p rest ih =>
    obtain ⟨k', v'⟩ := p
    simp only [List.map_cons, List.mem_cons, not_or] at h
    have hne : (k' == k) = false := by
      simp only [beq_eq_false_iff_ne]
      exact fun he => h.1 he.symm
    simp [setKey, hne, ih h.2]

theorem jsLookup_of_not_mem (entries : List (String × JS)) (k : String)
    (h : k ∉ entries.map Prod.fst) : jsLookup entries k = none := by
  unfold jsLookup
  rw [List.find?_eq_none.mpr]
  · rfl
  · intro p hp hpk
    exact h (List.mem_map.mpr ⟨p, hp, (beq_iff_eq.mp hpk)⟩)

theorem objectLoop_ok_entries (name : String) (j : JS) :
    ∀ (rest : List (String × FieldSpec)) (acc : List (String × JS)),
      (∀ k, k ∈ rest.map Prod.fst → k ∉ acc.map Prod.fst) →
      (rest.map Prod.fst).Nodup →
      ∀ r, objectLoop name j rest acc = .ok r →
      ∃ entries, r = .obj entries
        ∧ entries.map Prod.fst = acc.map Prod.fst ++ rest.map Prod.fst := by
  intro rest
  induction rest with
  | nil =>
    intro acc _ _ r hr
    exact ⟨acc, by cases hr; exact ⟨rfl, by simp⟩⟩
  | cons p rest ih =>
    intro acc hfresh hnodup r hr
    obtain ⟨key, spec⟩ := p
    simp only [objectLoop] at hr
    split at hr
    case h_2 e _ => simp at hr
    case h_1 v hd =>
      have hkey : key ∉ acc.map Prod.fst := hfresh key (by simp)
      rw [setKey_of_not_mem acc key v hkey] at hr
      simp only [List.map_cons, List.nodup_cons] at hnodup
      have hfresh' : ∀ k, k ∈ rest.map Prod.fst → k ∉ (acc ++ [(key, v)]).map Prod.fst := by
        intro k hk
        simp only [List.map_append, List.mem_append, List.map_cons, List.map_nil,
          List.mem_singleton, not_or]
        exact ⟨hfresh k (by simp [hk]), fun he => hnodup.1 (he ▸ hk)⟩
      obtain ⟨entries, he, hmap⟩ := ih (acc ++ [(key, v)]) hfresh' hnodup.2 r hr
      refine ⟨entries, he, ?_⟩
      rw [hmap]
      simp

/-- Claim C2: when `object(decoders, name)` succeeds (with distinct
declared keys, as TypeScript object literals guarantee) the returned
record's keys are exactly the declared field keys in order, any key
outside the declared set is absent, and in particular decoding
`{a:1, b:2, extra:true}` against a decoder declaring only `a` and `b`
yields exactly `{a:1, b:2}`. -/
theorem claim2_object_projection
    (decoders : List (String × FieldSpec)) (name : String) (j : JS) :
    ((decoders.map Prod.fst).Nodup →
      ∀ r, (object decoders name).decode j = .ok r →
      ∃ entries, r = .obj entries
        ∧ entries.map Prod.fst = decoders.map Prod.fst
        ∧ ∀ k, k ∉ decoders.map Prod.fst → jsLookup entries k = none)
    ∧ ((object [("a", FieldSpec.plain number), ("b", FieldSpec.plain number)] "AB").decode
        (.obj [("a", .num 1), ("b", .num 2), ("extra", .bool true)]) =
        .ok (.obj [("a", .num 1), ("b", .num 2)])) := by
  constructor
  · intro hnodup r hr
    simp only [object, Decoder.decode] at hr
    by_cases hobj : isObjectLike j
    · rw [if_pos hobj] at hr
      obtain ⟨entries, he, hmap⟩ :=
        objectLoop_ok_entries name j decoders [] (by simp) hnodup r hr
      simp only [List.map_nil, List.nil_append] at hmap
      exact ⟨entries, he, hmap, fun k hk =>
        jsLookup_of_not_mem entries k (hmap ▸ hk)⟩
    · rw [if_neg hobj] at hr; cases hr
  · rfl

/-- Witness for C2 at the claim's own example input. -/
theorem claim2_witness :
    ∃ entries, (JS.obj [("a", JS.num 1), ("b", JS.num 2)]) = .obj entries
      ∧ entries.map Prod.fst = ["a", "b"]
      ∧ ∀ k, k ∉ ["a", "b"] → jsLookup entries k = none := by
  have h := (claim2_object_projection
      [("a", FieldSpec.plain number), ("b", FieldSpec.plain number)] "AB"
      (.obj [("a", .num 1), ("b", .num 2), ("extra", .bool true)])).1
      (by simp) (.obj [("a", .num 1), ("b", .num 2)]) rfl
  simpa using h

theorem objectLoop_ok_of_all_ok (name : String) (j : JS) :
    ∀ (rest : List (String × FieldSpec)) (acc : List (String × JS)),
      (∀ p ∈ rest, (decodeField j p.1 p.2).isOk = true) →
      (objectLoop name j rest acc).isOk = true := by
  intro rest
  induction rest with
  | nil => intro acc _; rfl
  | cons p rest ih =>
    intro acc hall
    obtain ⟨key, spec⟩ := p
    have hk := hall (key, spec) (by simp)
    simp only [objectLoop]
    cases hd : decodeField j key spec with
    | err e => rw [hd] at hk; cases hk
    | ok v => exact ih _ (fun q hq => hall q (by simp [hq]))

theorem recordLoop_ok_of_all_ok (name : String) (d : Decoder JS) :
    ∀ (entries : List (String × JS)) (acc : List (String × JS)),
      (∀ p ∈ entries, (d.decode p.2).isOk = true) →
      (recordLoop name d entries acc).isOk = true := by
  intro entries
  induction entries with
  | nil => intro acc _; rfl
  | cons p entries ih =>
    intro acc hall
    obtain ⟨key, v⟩ := p
    have hk := hall (key, v) (by simp)
    simp only [recordLoop]
    cases hd : d.decode v with
    | err e => rw [hd] at hk; cases hk
    | ok w => exact ih _ (fun q hq => hall q (by simp [hq]))

theorem objectLoop_shape (name : String) (j : JS) :
    ∀ (rest : List (String × FieldSpec)) (acc : List (String × JS)),
      (objectLoop name j rest acc).isOk = true
        ∨ ∃ key e, objectLoop name j rest acc = .err (objectError name key e) := by
  intro rest
  induction rest with
  | nil => intro acc; exact Or.inl rfl
  | cons p rest ih =>
    intro acc
    obtain ⟨key, spec⟩ := p
    simp only [objectLoop]
    cases hd : decodeField j key spec with
    | err e => exact Or.inr ⟨key, e, rfl⟩
    | ok v => exact ih _

theorem recordLoop_shape (name : String) (d : Decoder JS) :
    ∀ (entries : List (String × JS)) (acc : List (String × JS)),
      (recordLoop name d entries acc).isOk = true
        ∨ ∃ key e, recordLoop name d entries acc = .err (recordError name key e) := by
  intro entries
  induction entries with
  | nil => intro acc; exact Or.inl rfl
  | cons p entries ih =>
    intro acc
    obtain ⟨key, v⟩ := p
    simp only [recordLoop]
    cases hd : d.decode v with
    | err e => exact Or.inr ⟨key, e, rfl⟩
    | ok w => exact ih _

/-- Claim C9: `object` and `record` accept array inputs (the
`json !== null && typeof json === 'object'` guard admits arrays): an
object decoder whose declared fields all decode against the array's
properties succeeds, a record decoder on an array decodes the elements as
values and succeeds when they all decode (shown concretely too), and the
primitive-type error branch is taken exactly for `null` and non-object
inputs — on object-like inputs the result is a success or a
field/key-indexed error. -/
theorem claim9_object_record_accept_arrays (name : String) :
    (∀ (decoders : List (String × FieldSpec)) (xs : List JS),
      (∀ p ∈ decoders, (decodeField (.arr xs) p.1 p.2).isOk = true) →
      ((object decoders name).decode (.arr xs)).isOk = true)
    ∧ (∀ xs : List JS, (object [] name).decode (.arr xs) = .ok (.obj []))
    ∧ (∀ (d : Decoder JS) (xs : List JS),
      (∀ x ∈ xs, (d.decode x).isOk = true) →
      ((record d name).decode (.arr xs)).isOk = true)
    ∧ ((record number name).decode (.arr [.num 7, .num 8]) =
        .ok (.obj [("0", .num 7), ("1", .num 8)]))
    ∧ (∀ (decoders : List (String × FieldSpec)) (j : JS), isObjectLike j = false →
      (object decoders name).decode j = .err (primitiveError j name))
    ∧ (∀ (d : Decoder JS) (j : JS), isObjectLike j = false →
      (record d name).decode j = .err (primitiveError j name))
    ∧ (∀ (decoders : List (String × FieldSpec)) (j : JS), isObjectLike j = true →
      ((object decoders name).decode j).isOk = true
        ∨ ∃ key e, (object decoders name).decode j = .err (objectError name key e))
    ∧ (∀ (d : Decoder JS) (j : JS), isObjectLike j = true →
      ((record d name).decode j).isOk = true
        ∨ ∃ key e, (record d name).decode j = .err (recordError name key e)) := by
  refine ⟨?_, fun xs => rfl, ?_, rfl, ?_, ?_, ?_, ?_⟩
  · intro decoders xs hall
    simpa [object, Decoder.decode, isObjectLike] using
      objectLoop_ok_of_all_ok name (.arr xs) decoders [] hall
  · intro d xs hall
    have hmem : ∀ p ∈ ownEntries (.arr xs), (d.decode p.2).isOk = true := by
      simp only [ownEntries, List.mem_map]
      rintro p ⟨q, hq, rfl⟩
      obtain ⟨i, hi, rfl⟩ := List.exists_mem_enum.mp ⟨q, hq, rfl⟩
      exact hall _ (List.getElem_mem hi)
    simpa [record, Decoder.decode, isObjectLike] using
      recordLoop_ok_of_all_ok name d (ownEntries (.arr xs)) [] hmem
  · intro decoders j hj
    simp [object, Decoder.decode, hj]
  · intro d j hj
    simp [record, Decoder.decode, hj]
  · intro decoders j hj
    simpa [object, Decoder.decode, hj] using objectLoop_shape name j decoders []
  · intro d j hj
    simpa [record, Decoder.decode, hj] using recordLoop_shape name d (ownEntries j) []

/-- Witness for C9: the empty-field object decoder succeeds on an array,
and a number-record decoder succeeds on a number array. -/
theorem claim9_witness :
    (((object [] "Obj").decode (.arr [.bool true])).isOk = true)
    ∧ (((record number "R").decode (.arr [.num 7, .num 8])).isOk = true) :=
  ⟨(claim9_object_record_accept_arrays "Obj").1 [] [.bool true] (by simp),
   (claim9_object_record_accept_arrays "R").2.2.1 number [.num 7, .num 8]
      (by intro x hx; fin_cases hx <;> rfl)⟩

theorem tupleLoop_err_at (name : String) :
    ∀ (pairs : List (Decoder JS × JS)) (i0 : Nat) (acc : List JS) (idx : Nat)
      (hidx : idx < pairs.length) (e : String),
      (∀ k (hk : k < idx),
        ((pairs.get ⟨k, Nat.lt_trans hk hidx⟩).1.decode
          (pairs.get ⟨k, Nat.lt_trans hk hidx⟩).2).isOk = true) →
      ((pairs.get ⟨idx, hidx⟩).1.decode (pairs.get ⟨idx, hidx⟩).2 = .err e) →
      tupleLoop name pairs i0 acc = .err (arrayError name (i0 + idx) e) := by
  intro pairs
  induction pairs with
  | nil =>
    intro i0 acc idx hidx
    exact absurd hidx (by simp)
  | cons p rest ih =>
    intro i0 acc idx hidx e hpre hfail
    obtain ⟨d, x⟩ := p
    cases idx with
    | zero =>
      simp only [tupleLoop]
      rw [show d.decode x = .err e from hfail]
      rfl
    | succ idx' =>
      have h0 : (d.decode x).isOk = true := hpre 0 (Nat.succ_pos idx')
      simp only [tupleLoop]
      cases hd : d.decode x with
      | err e' => rw [hd] at h0; cases h0
      | ok v =>
        have hidx' : idx' < rest.length := Nat.lt_of_succ_lt_succ hidx
        have hres := ih (i0 + 1) (acc ++ [v]) idx' hidx' e
          (fun k hk => hpre (k + 1) (Nat.succ_lt_succ hk)) hfail
        rw [show i0 + (idx' + 1) = i0 + 1 + idx' from by omega]
        exact hres

/-- Claim C5: on an array whose length differs from the decoder count,
`tuple` fails with the length-mismatch error (whose text reports both the
element count and the decoder count) and the result does not depend on
the element decoders at all (no element decoder is invoked); on matching
lengths, the decoder at each position runs on the element at that
position, and the first elementwise failure is reported with the
array-index error. -/
theorem claim5_tuple_length_mismatch
    (decoders : List (Decoder JS)) (name : String) (xs : List JS) :
    (xs.length ≠ decoders.length →
      ((tuple decoders name).decode (.arr xs) =
        .err (tupleLengthMismatchError name xs decoders))
      ∧ ∀ decoders' : List (Decoder JS), decoders'.length = decoders.length →
        (tuple decoders' name).decode (.arr xs) = (tuple decoders name).decode (.arr xs))
    ∧ (xs.length = decoders.length →
      ∀ (idx : Nat) (hd : idx < decoders.length) (hx : idx < xs.length) (e : String),
        (∀ k (hk : k < idx),
          ((decoders.get ⟨k, Nat.lt_trans hk hd⟩).decode
            (xs.get ⟨k, Nat.lt_trans hk hx⟩)).isOk = true) →
        (decoders.get ⟨idx, hd⟩).decode (xs.get ⟨idx, hx⟩) = .err e →
        (tuple decoders name).decode (.arr xs) = .err (arrayError name idx e)) := by
  constructor
  · intro hne
    constructor
    · simp [tuple, Decoder.decode, hne]
    · intro decoders' hlen
      have hne' : xs.length ≠ decoders'.length := by omega
      simp only [tuple, Decoder.decode, if_pos hne, if_pos hne']
      unfold tupleLengthMismatchError
      rw [hlen]
  · intro hlen idx hd hx e hpre hfail
    have hzip : idx < (decoders.zip xs).length := by
      rw [List.length_zip]; omega
    have hget : ∀ (k : Nat) (hk : k < (decoders.zip xs).length),
        (decoders.zip xs).get ⟨k, hk⟩ =
          (decoders.get ⟨k, by rw [List.length_zip] at hk; omega⟩,
           xs.get ⟨k, by rw [List.length_zip] at hk; omega⟩) := by
      intro k hk
      simp [List.get_eq_getElem, List.getElem_zip]
    simp only [tuple, Decoder.decode, if_neg (by omega : ¬xs.length ≠ decoders.length)]
    have := tupleLoop_err_at name (decoders.zip xs) 0 [] idx hzip e
      (fun k hk => by rw [hget k (Nat.lt_trans hk hzip)]; exact hpre k hk)
      (by rw [hget idx hzip]; exact hfail)
    rw [this, Nat.zero_add]

/-- Witness for C5: `tuple([number, number], 'Point')` on `[1,2,3]`
fails with the length-mismatch error independently of the decoders used,
and on `['a', 2]` the first elementwise failure is reported at index 0. -/
theorem claim5_witness :
    ((tuple [number, number] "Point").decode (.arr [.num 1, .num 2, .num 3]) =
      .err (tupleLengthMismatchError "Point" [.num 1, .num 2, .num 3] [number, number]))
    ∧ ((tuple [fail "never run", fail "never run"] "Point").decode
        (.arr [.num 1, .num 2, .num 3]) =
      (tuple [number, number] "Point").decode (.arr [.num 1, .num 2, .num 3]))
    ∧ ((tuple [number, number] "Point").decode (.arr [.str "a", .num 2]) =
      .err (arrayError "Point" 0 (primitiveError (.str "a") "number"))) :=
  ⟨((claim5_tuple_length_mismatch [number, number] "Point" [.num 1, .num 2, .num 3]).1
      (by simp)).1,
   ((claim5_tuple_length_mismatch [number, number] "Point" [.num 1, .num 2, .num 3]).1
      (by simp)).2 [fail "never run", fail "never run"] (by simp),
   (claim5_tuple_length_mismatch [number, number] "Point" [.str "a", .num 2]).2
      (by simp) 0 (by simp) (by simp) (primitiveError (.str "a") "number")
      (fun k hk => absurd hk (Nat.not_lt_zero k)) rfl⟩

/-- The accumulated-value sequence claim C4 describes for plain-object
inputs: start from the input, and after each decoder success deep-merge
the accumulated value with the decoder's output; `none` when some decoder
fails. Written from the claim's words, to be compared with `allOf`. -/
def allOfSpecAccum (j : JS) : List (Decoder JS) → Option JS
  | [] => some j
  | d :: ds =>
    match d.decode j with
    | .ok v => allOfSpecAccum (deepMerge j v) ds
    | .err _ => none

theorem allOfLoop_arr_ok (name : String) (j : JS) :
    ∀ (ds : List (Decoder JS)) (i : Nat),
      (∀ d ∈ ds, (d.decode j).isOk = true) →
      allOfLoop name false true i j ds = .ok j := by
  intro ds
  induction ds with
  | nil => intro i _; rfl
  | cons d ds ih =>
    intro i hall
    have h0 := hall d (by simp)
    simp only [allOfLoop]
    cases hd : d.decode j with
    | err e => rw [hd] at h0; cases h0
    | ok v =>
      simp only [Bool.false_eq_true, if_false, if_true]
      exact ih (i + 1) (fun d' hd' => hall d' (by simp [hd']))

theorem allOfLoop_arr_err (name : String) (j : JS) :
    ∀ (ds : List (Decoder JS)) (i idx : Nat) (hidx : idx < ds.length) (e : String),
      (∀ k (hk : k < idx), ((ds.get ⟨k, Nat.lt_trans hk hidx⟩).decode j).isOk = true) →
      (ds.get ⟨idx, hidx⟩).decode j = .err e →
      allOfLoop name false true i j ds = .err (allOfError name (i + idx) e) := by
  intro ds
  induction ds with
  | nil => intro i idx hidx; exact absurd hidx (by simp)
  | cons d ds ih =>
    intro i idx hidx e hpre hfail
    cases idx with
    | zero =>
      simp only [allOfLoop]
      rw [show d.decode j = .err e from hfail]
      rfl
    | succ idx' =>
      have h0 : (d.decode j).isOk = true := hpre 0 (Nat.succ_pos idx')
      simp only [allOfLoop]
      cases hd : d.decode j with
      | err e' => rw [hd] at h0; cases h0
      | ok v =>
        simp only [Bool.false_eq_true, if_false, if_true]
        have hres := ih (i + 1) idx' (Nat.lt_of_succ_lt_succ hidx) e
          (fun k hk => hpre (k + 1) (Nat.succ_lt_succ hk)) hfail
        rw [show i + (idx' + 1) = i + 1 + idx' from by omega]
        exact hres

theorem allOfLoop_obj_ok (name : String) :
    ∀ (ds : List (Decoder JS)) (i : Nat) (j final : JS),
      allOfSpecAccum j ds = some final →
      allOfLoop name true false i j ds = .ok final := by
  intro ds
  induction ds with
  | nil =>
    intro i j final hacc
    cases hacc
    rfl
  | cons d ds ih =>
    intro i j final hacc
    simp only [allOfSpecAccum] at hacc
    simp only [allOfLoop]
    cases hd : d.decode j with
    | err e => rw [hd] at hacc; cases hacc
    | ok v =>
      rw [hd] at hacc
      simp only [if_true]
      exact ih (i + 1) (deepMerge j v) final hacc

theorem allOfLoop_obj_err (name : String) :
    ∀ (ds : List (Decoder JS)) (i : Nat) (j : JS) (idx : Nat)
      (hidx : idx < ds.length) (e : String) (mi : JS),
      allOfSpecAccum j (ds.take idx) = some mi →
      (ds.get ⟨idx, hidx⟩).decode mi = .err e →
      allOfLoop name true false i j ds = .err (allOfError name (i + idx) e) := by
  intro ds
  induction ds with
  | nil => intro i j idx hidx; exact absurd hidx (by simp)
  | cons d ds ih =>
    intro i j idx hidx e mi hacc hfail
    cases idx with
    | zero =>
      cases hacc
      simp only [allOfLoop]
      rw [show d.decode j = .err e from hfail]
      rfl
    | succ idx' =>
      simp only [List.take_succ_cons, allOfSpecAccum] at hacc
      simp only [allOfLoop]
      cases hd : d.decode j with
      | err e' => rw [hd] at hacc; cases hacc
      | ok v =>
        rw [hd] at hacc
        simp only [if_true]
        have hres := ih (i + 1) (deepMerge j v) idx' (Nat.lt_of_succ_lt_succ hidx)
          e mi hacc hfail
        rw [show i + (idx' + 1) = i + 1 + idx' from by omega]
        exact hres

/-- Counterexample to claim C4: the `allOf` of `schemas/all-of.ts`
(cited by the claim) applies every decoder to the original input and
returns the original input on success — on a plain-object input it does
NOT return the accumulated deep-merged value the claim describes. -/
theorem claim4_counterexample :
    ((Schemas.allOf [succeed.map (fun _ => .obj [("b", .num 2)])] "T").decode
        (.obj [("a", .num 1)]) = .ok (.obj [("a", .num 1)]))
    ∧ (allOfSpecAccum (.obj [("a", .num 1)])
        [succeed.map (fun _ => .obj [("b", .num 2)])] =
        some (.obj [("a", .num 1), ("b", .num 2)]))
    ∧ (JS.obj [("a", .num 1)]) ≠ (.obj [("a", .num 1), ("b", .num 2)]) :=
  ⟨rfl, rfl, by simp⟩

/-- Claim C4 as amended (it holds of the merging `allOf` of the unnamed
module, not of the non-merging `schemas/all-of.ts` one): on an array
input every decoder runs on the original input, which is also the
success value; on a plain-object input each subsequent decoder runs on
the deep merge of the accumulated value with the previous output
(`allOfSpecAccum`), the first failure at position `idx` is reported as
`allOfError` at that index, on success the final accumulated value is
returned; and `deepMerge` replaces array values instead of merging
them. -/
theorem claim4_allOf_merging (decoders : List (Decoder JS)) (name : String) :
    (∀ xs : List JS,
      ((∀ d ∈ decoders, (d.decode (.arr xs)).isOk = true) →
        (allOf decoders name).decode (.arr xs) = .ok (.arr xs))
      ∧ (∀ (idx : Nat) (hidx : idx < decoders.length) (e : String),
          (∀ k (hk : k < idx),
            ((decoders.get ⟨k, Nat.lt_trans hk hidx⟩).decode (.arr xs)).isOk = true) →
          (decoders.get ⟨idx, hidx⟩).decode (.arr xs) = .err e →
          (allOf decoders name).decode (.arr xs) = .err (allOfError name idx e)))
    ∧ (∀ fields : List (String × JS),
      (∀ final, allOfSpecAccum (.obj fields) decoders = some final →
        (allOf decoders name).decode (.obj fields) = .ok final)
      ∧ (∀ (idx : Nat) (hidx : idx < decoders.length) (e : String) (mi : JS),
          allOfSpecAccum (.obj fields) (decoders.take idx) = some mi →
          (decoders.get ⟨idx, hidx⟩).decode mi = .err e →
          (allOf decoders name).decode (.obj fields) = .err (allOfError name idx e)))
    ∧ (∀ (t : JS) (k : String) (b : List JS),
        deepMerge t (.obj [(k, .arr b)]) = .obj (setKey (ownEntries t) k (.arr b))) := by
  refine ⟨fun xs => ⟨?_, ?_⟩, fun fields => ⟨?_, ?_⟩, ?_⟩
  · intro hall
    exact allOfLoop_arr_ok name (.arr xs) decoders 0 hall
  · intro idx hidx e hpre hfail
    have := allOfLoop_arr_err name (.arr xs) decoders 0 idx hidx e hpre hfail
    simpa [allOf, Decoder.decode] using this
  · intro final hacc
    exact allOfLoop_obj_ok name decoders 0 (.obj fields) final hacc
  · intro idx hidx e mi hacc hfail
    have := allOfLoop_obj_err name decoders 0 (.obj fields) idx hidx e mi hacc hfail
    simpa [allOf, Decoder.decode] using this
  · intro t k b
    have hval : ∀ o : Option JS, deepMergeVal o (.arr b) = .arr b := by
      intro o
      cases o with
      | none => rfl
      | some v => cases v <;> rfl
    simp [deepMerge, ownEntries, mergeSourceList, hval]

/-- Witness for the amended C4: `allOf [succeed]` returns the original
array unchanged on an array input, returns the accumulated merge on a
plain-object input, and reports the indexed error for a failing
decoder. -/
theorem claim4_witness :
    ((allOf [succeed] "T").decode (.arr [.num 1]) = .ok (.arr [.num 1]))
    ∧ ((allOf [succeed] "T").decode (.obj [("a", .num 1)]) = .ok (.obj [("a", .num 1)]))
    ∧ ((allOf [fail "boom"] "T").decode (.obj [("a", .num 1)]) =
        .err (allOfError "T" 0 "boom")) :=
  ⟨((claim4_allOf_merging [succeed] "T").1 [.num 1]).1
      (by intro d hd; rw [List.mem_singleton.mp hd]; rfl),
   ((claim4_allOf_merging [succeed] "T").2.1 [("a", .num 1)]).1 (.obj [("a", .num 1)]) rfl,
   ((claim4_allOf_merging [fail "boom"] "T").2.1 [("a", .num 1)]).2 0 (by simp) "boom"
      (.obj [("a", .num 1)]) rfl rfl⟩

theorem find?_append_of_none {α : Type} (p : α → Bool) :
    ∀ (l₁ l₂ : List α), l₁.find? p = none → (l₁ ++ l₂).find? p = l₂.find? p := by
  intro l₁
  induction l₁ with
  | nil => intro l₂ _; rfl
  | cons a l₁ ih =>
    intro l₂ h
    cases hp : p a with
    | true => simp [List.find?_cons, hp] at h
    | false =>
      simp only [List.find?_cons, hp] at h ⊢
      simp only [List.cons_append, List.find?_cons, hp]
      exact ih l₂ h

theorem find?_range'_shift (p : Nat → Bool) :
    ∀ (c s : Nat),
      (List.range' s c).find? p =
        ((List.range c).find? (fun k => p (s + k))).map (s + ·) := by
  intro c
  induction c with
  | zero => intro s; rfl
  | succ c ih =>
    intro s
    rw [show List.range' s (c + 1) = s :: List.range' (s + 1) c from rfl,
      List.range_succ_eq_map c]
    cases hp : p s with
    | true =>
      have h0 : (fun k => p (s + k)) 0 = true := by simpa using hp
      simp [List.find?_cons, hp, h0]
    | false =>
      have h0 : (fun k => p (s + k)) 0 = false := by simpa using hp
      simp only [List.find?_cons, hp, h0]
      rw [ih (s + 1), List.find?_map]
      have hfun : ((fun k => p (s + k)) ∘ Nat.succ) = fun k => p (s + 1 + k) := by
        funext k
        simp only [Function.comp]
        rw [show s + Nat.succ k = s + 1 + k from by omega]
      have hmap : ((fun k => s + k) ∘ Nat.succ) = ((fun k => s + 1 + k) : Nat → Nat) := by
        funext k
        simp only [Function.comp]
        omega
      rw [hfun, Option.map_map, hmap]

theorem find?_range_shift_constrained (P : Nat → Bool) (n start : Nat) (h : start ≤ n) :
    (List.range (n + 1)).find? (fun i => decide (start ≤ i) && P i) =
      ((List.range (n + 1 - start)).find? (fun k => P (start + k))).map (start + ·) := by
  rw [List.range_eq_range' (n + 1)]
  have hsplit : List.range' 0 start ++ List.range' start (n + 1 - start) =
      List.range' 0 (n + 1) := by
    have hap := List.range'_append 0 start (n + 1 - start) 1
    rw [show n + 1 - start + start = n + 1 from by omega,
      show 0 + 1 * start = start from by omega] at hap
    exact hap
  rw [← hsplit, find?_append_of_none]
  · rw [find?_range'_shift]
    have hfun : (fun k => decide (start ≤ start + k) && P (start + k)) =
        fun k => P (start + k) := by
      funext k
      simp
    rw [hfun]
  · rw [List.find?_eq_none]
    intro x hx
    have hlt : x < start := by
      have := List.mem_range'_1.mp hx
      omega
    simp [Nat.not_le_of_lt hlt]

theorem jsIndexOfFrom_eq (s sub : List Char) (start : Nat) (h : start ≤ s.length) :
    jsIndexOfFrom s sub start = (firstOccurIdx (s.drop start) sub).map (start + ·) := by
  unfold jsIndexOfFrom firstOccurIdx
  rw [min_eq_left h,
    find?_range_shift_constrained (fun i => sub.isPrefixOf (s.drop i)) s.length start h,
    show s.length + 1 - start = (s.drop start).length + 1 from by
      rw [List.length_drop]; omega]
  have hfun : ((fun k => sub.isPrefixOf (s.drop (start + k))) : Nat → Bool) =
      fun k => sub.isPrefixOf ((s.drop start).drop k) := by
    funext k
    rw [List.drop_drop]
  rw [hfun]

theorem firstOccurIdx_le (cs sub : List Char) (k : Nat)
    (h : firstOccurIdx cs sub = some k) : k ≤ cs.length := by
  have hm := List.mem_of_find?_eq_some h
  have := List.mem_range.mp hm
  omega

theorem isPrefixOf_length_le (a b : List Char) (h : a.isPrefixOf b = true) :
    a.length ≤ b.length :=
  (List.isPrefixOf_iff_prefix.mp h).length_le

theorem tlLoop_eq_tlaLoop (parts : List TPart) (s : String) :
    ∀ (rest : List TPart) (jsonIndex : Nat), jsonIndex ≤ s.data.length →
      tlLoop parts s jsonIndex rest = tlaLoop parts s (s.data.drop jsonIndex) rest := by
  intro rest
  induction rest with
  | nil =>
    intro jsonIndex h
    simp only [tlLoop, tlaLoop]
    by_cases hj : jsonIndex = s.data.length
    · subst hj
      simp [List.drop_length]
    · rw [if_pos hj, if_neg]
      rw [List.isEmpty_iff_length_eq_zero, List.length_drop]
      omega
  | cons part rest ih =>
    cases part with
    | dec d =>
      intro jsonIndex h
      cases hlit : firstStringLit rest with
      | none =>
        rw [tlLoop_dec_no_lit parts s jsonIndex d rest hlit,
          tlaLoop_dec_no_lit parts s (s.data.drop jsonIndex) d rest hlit]
        exact tlFinish_eq parts s d rest jsonIndex s.data.length
          (s.data.drop jsonIndex) []
          (by rw [List.take_length])
          (by rw [ih s.data.length (Nat.le_refl _), List.drop_length])
      | some lit =>
        rw [tlLoop_dec_lit parts s jsonIndex d rest lit hlit,
          tlaLoop_dec_lit parts s (s.data.drop jsonIndex) d rest lit hlit,
          jsIndexOfFrom_eq s.data lit.data jsonIndex h]
        cases hocc : firstOccurIdx (s.data.drop jsonIndex) lit.data with
        | none => rfl
        | some k =>
          have hk : k ≤ (s.data.drop jsonIndex).length := firstOccurIdx_le _ _ _ hocc
          have hbound : jsonIndex + k ≤ s.data.length := by
            rw [List.length_drop] at hk; omega
          simp only [Option.map_some']
          exact tlFinish_eq parts s d rest jsonIndex (jsonIndex + k)
            ((s.data.drop jsonIndex).take k) ((s.data.drop jsonIndex).drop k)
            (by rw [List.drop_take, show jsonIndex + k - jsonIndex = k from by omega])
            (by rw [ih (jsonIndex + k) hbound, ← List.drop_drop])
    | lit l =>
      intro jsonIndex h
      simp only [tlLoop, tlaLoop]
      cases hpre : l.data.isPrefixOf (s.data.drop jsonIndex) with
      | false => rfl
      | true =>
        have hlen : l.data.length ≤ (s.data.drop jsonIndex).length :=
          isPrefixOf_length_le _ _ hpre
        have hbound : jsonIndex + l.data.length ≤ s.data.length := by
          rw [List.length_drop] at hlen; omega
        rw [ih (jsonIndex + l.data.length) hbound, ← List.drop_drop]
    | numLit n =>
      intro jsonIndex h
      simp only [tlLoop, tlaLoop]
      cases hpre : (toString n).data.isPrefixOf (s.data.drop jsonIndex) with
      | false => rfl
      | true =>
        have hlen : (toString n).data.length ≤ (s.data.drop jsonIndex).length :=
          isPrefixOf_length_le _ _ hpre
        have hbound : jsonIndex + (toString n).data.length ≤ s.data.length := by
          rw [List.length_drop] at hlen; omega
        rw [ih (jsonIndex + (toString n).data.length) hbound, ← List.drop_drop]

/-- Counterexample to claim C7: with the pattern `[string decoder, 5]`
(a sub-decoder followed by a NUMBER literal segment) on input `"ab5"`,
the claim's boundary rule (number literals, rendered to string, bound the
capture) predicts success with `"ab5"`, but the implementation only
searches for STRING literal parts, captures to the end of the input, and
then fails on the number literal. -/
theorem claim7_counterexample :
    ((templateLiteral [.dec string, .numLit 5]).decode (.str "ab5") =
      .err (exactlyError (.str "ab5") (.str (renderTemplate [.dec string, .numLit 5]))))
    ∧ ((templateLiteralClaimSpec [.dec string, .numLit 5]).decode (.str "ab5") =
      .ok (.str "ab5"))
    ∧ (templateLiteral [.dec string, .numLit 5]).decode (.str "ab5") ≠
        (templateLiteralClaimSpec [.dec string, .numLit 5]).decode (.str "ab5") := by
  refine ⟨rfl, rfl, fun hcontra => ?_⟩
  rw [show (templateLiteral [.dec string, .numLit 5]).decode (.str "ab5") =
      .err (exactlyError (.str "ab5") (.str (renderTemplate [.dec string, .numLit 5])))
      from rfl,
    show (templateLiteralClaimSpec [.dec string, .numLit 5]).decode (.str "ab5") =
      .ok (.str "ab5") from rfl] at hcontra
  cases hcontra

/-- Claim C7 as amended: in `templateLiteral(parts).decode(s)` on a
string input, the captured substring of every sub-decoder segment ends
at the first occurrence, at or after the cursor, of the next subsequent
STRING literal segment of the pattern (number literal segments are not
boundary candidates), runs to the end of the input when no such later
string literal exists, and after all segments the cursor must equal the
input length exactly — stated as equality with the suffix-phrased
specification walker `templateLiteralAmendedSpec`. -/
theorem claim7_amended_boundaries (parts : List TPart) (j : JS) :
    (templateLiteral parts).decode j = (templateLiteralAmendedSpec parts).decode j := by
  cases j with
  | str s =>
    show tlLoop parts s 0 parts = tlaLoop parts s s.data parts
    have h := tlLoop_eq_tlaLoop parts s parts 0 (Nat.zero_le _)
    rwa [List.drop_zero] at h
  | num n => rfl
  | nan => rfl
  | bool b => rfl
  | null => rfl
  | undefined => rfl
  | arr xs => rfl
  | obj fields => rfl

end TsJson
